import Mathlib

/-!
Shallow embedding of the `le-differ` diff viewer core
(`src/diff_viewer.rs`, `src/changed_files.rs`, `src/main.rs`),
with proofs of the specified properties of the diff pipeline and the
asynchronous cache/scheduler.

External collaborators (the `similar` text-diff crate, the `syntect`
highlighter, the filesystem and the `jj` VCS command) are modelled as
oracles or, where the spec describes their algorithm, as definitions
marked "Modelled from the spec".
-/

namespace LeDiffer

/-- `similar::ChangeTag` — the tag of one diff line. -/
inductive ChangeTag where
  | Delete : ChangeTag
  | Insert : ChangeTag
  | Equal : ChangeTag
deriving DecidableEq

/-- `DiffLineRaw` from `diff_viewer.rs`: a raw diff line before rendering. -/
structure DiffLineRaw where
  old_line_num : Option Nat
  new_line_num : Option Nat
  content : String
  change_type : ChangeTag
deriving DecidableEq

/-- One change produced by `TextDiff::iter_all_changes` in the `similar`
crate: a tag together with the changed line's value. -/
structure Change where
  tag : ChangeTag
  value : String
deriving DecidableEq

/-- `value.trim_end_matches('\n')`: drop every trailing newline character. -/
def trim_end_newlines (s : String) : String :=
  ⟨(s.data.reverse.dropWhile (fun c => c = '\n')).reverse⟩

/-- The numbering loop of `compute_diff` (`diff_viewer.rs` lines 402–438),
over an arbitrary change sequence: two counters `old_line_num` and
`new_line_num`; Delete emits and advances only the old counter, Insert only
the new one, Equal both. -/
def number_changes : List Change → Nat → Nat → List DiffLineRaw
  | [], _, _ => []
  | c :: cs, old_line_num, new_line_num =>
    match c.tag with
    | ChangeTag.Delete =>
      ⟨some old_line_num, none, trim_end_newlines c.value, ChangeTag.Delete⟩ ::
        number_changes cs (old_line_num + 1) new_line_num
    | ChangeTag.Insert =>
      ⟨none, some new_line_num, trim_end_newlines c.value, ChangeTag.Insert⟩ ::
        number_changes cs old_line_num (new_line_num + 1)
    | ChangeTag.Equal =>
      ⟨some old_line_num, some new_line_num, trim_end_newlines c.value, ChangeTag.Equal⟩ ::
        number_changes cs (old_line_num + 1) (new_line_num + 1)

/-- Modelled from the spec: `TextDiff::from_lines` (external `similar`
crate) splits a text into lines with the terminator retained; `"a\nb"`
becomes `["a\n", "b"]` and the empty text becomes `[]`. -/
def split_lines_keep_aux : List Char → List Char → List String
  | [], [] => []
  | [], acc => [⟨acc.reverse⟩]
  | c :: rest, acc =>
    if c = '\n' then String.mk ((c :: acc).reverse) :: split_lines_keep_aux rest []
    else split_lines_keep_aux rest (c :: acc)

/-- Modelled from the spec: split a text into terminator-retaining lines. -/
def split_lines_keep (s : String) : List String :=
  split_lines_keep_aux s.data []

/-- Modelled from the spec: length of a longest common subsequence of two
line lists, the quantity a Myers-style line diff maximises. The fuel
argument only bounds the recursion depth; `xs.length + ys.length` always
suffices. -/
def lcs_len_fuel : Nat → List String → List String → Nat
  | _, [], _ => 0
  | _, _ :: _, [] => 0
  | 0, _ :: _, _ :: _ => 0
  | fuel + 1, x :: xs, y :: ys =>
    if x = y then lcs_len_fuel fuel xs ys + 1
    else max (lcs_len_fuel fuel xs (y :: ys)) (lcs_len_fuel fuel (x :: xs) ys)

/-- Modelled from the spec: LCS length of two line lists. -/
def lcs_len (xs ys : List String) : Nat :=
  lcs_len_fuel (xs.length + ys.length) xs ys

/-- Modelled from the spec: the line-oriented LCS-style diff of the external
`similar` crate (`TextDiff::from_lines` + `iter_all_changes`): equal heads
are consumed as Equal; otherwise a deletion or insertion is chosen so as to
preserve a longest common subsequence. The fuel argument only bounds the
recursion depth; `xs.length + ys.length` always suffices. -/
def lcs_diff_fuel : Nat → List String → List String → List Change
  | _, [], ys => ys.map (fun y => ⟨ChangeTag.Insert, y⟩)
  | _, x :: xs, [] => (x :: xs).map (fun x => ⟨ChangeTag.Delete, x⟩)
  | 0, _ :: _, _ :: _ => []
  | fuel + 1, x :: xs, y :: ys =>
    if x = y then ⟨ChangeTag.Equal, x⟩ :: lcs_diff_fuel fuel xs ys
    else if lcs_len (x :: xs) ys ≤ lcs_len xs (y :: ys) then
      ⟨ChangeTag.Delete, x⟩ :: lcs_diff_fuel fuel xs (y :: ys)
    else
      ⟨ChangeTag.Insert, y⟩ :: lcs_diff_fuel fuel (x :: xs) ys

/-- Modelled from the spec: the diff of two line lists. -/
def lcs_diff (xs ys : List String) : List Change :=
  lcs_diff_fuel (xs.length + ys.length) xs ys

/-- Modelled from the spec: the change sequence the `similar` crate yields
for two texts. -/
def text_diff_from_lines (old new : String) : List Change :=
  lcs_diff (split_lines_keep old) (split_lines_keep new)

/-- `compute_diff` (`diff_viewer.rs` lines 402–438): diff two texts and
assign line numbers. -/
def compute_diff (old new : String) : List DiffLineRaw :=
  number_changes (text_diff_from_lines old new) 1 1

/-- The blank placeholder line pushed by `split_for_side_by_side`:
no line numbers, empty content, Equal tag. -/
def blank_line : DiffLineRaw :=
  ⟨none, none, "", ChangeTag.Equal⟩

/-- `split_for_side_by_side` (`diff_viewer.rs` lines 440–492): map the
unified sequence positionally onto an old pane and a new pane. -/
def split_for_side_by_side : List DiffLineRaw → List DiffLineRaw × List DiffLineRaw
  | [] => ([], [])
  | line :: rest =>
    let tails := split_for_side_by_side rest
    match line.change_type with
    | ChangeTag.Equal =>
      (⟨line.old_line_num, line.new_line_num, line.content, line.change_type⟩ :: tails.1,
       ⟨line.old_line_num, line.new_line_num, line.content, line.change_type⟩ :: tails.2)
    | ChangeTag.Delete =>
      (⟨line.old_line_num, line.new_line_num, line.content, line.change_type⟩ :: tails.1,
       blank_line :: tails.2)
    | ChangeTag.Insert =>
      (blank_line :: tails.1,
       ⟨line.old_line_num, line.new_line_num, line.content, line.change_type⟩ :: tails.2)

/-- Count of changes that carry an old line number (Delete and Equal). -/
def old_count (cs : List Change) : Nat :=
  (cs.filter (fun c => c.tag ≠ ChangeTag.Insert)).length

/-- Count of changes that carry a new line number (Insert and Equal). -/
def new_count (cs : List Change) : Nat :=
  (cs.filter (fun c => c.tag ≠ ChangeTag.Delete)).length

/-- The shape invariant of a numbered diff line: Equal lines carry both
numbers, Deleted lines only the old one, Inserted lines only the new one. -/
def line_shape (l : DiffLineRaw) : Prop :=
  (l.change_type = ChangeTag.Equal → l.old_line_num.isSome ∧ l.new_line_num.isSome) ∧
  (l.change_type = ChangeTag.Delete → l.old_line_num.isSome ∧ l.new_line_num = none) ∧
  (l.change_type = ChangeTag.Insert → l.old_line_num = none ∧ l.new_line_num.isSome)

instance (l : DiffLineRaw) : Decidable (line_shape l) := by
  unfold line_shape
  infer_instance

/-- Color of a span, as four 8-bit components (`egui::Color32`). -/
structure SpanColor where
  r : Nat
  g : Nat
  b : Nat
  a : Nat
deriving DecidableEq

/-- `HighlightedSpan` from `diff_viewer.rs`: a pre-highlighted text span. -/
structure HighlightedSpan where
  text : String
  color : SpanColor
deriving DecidableEq

/-- `RenderedLine` from `diff_viewer.rs`: a diff line with pre-computed
highlighting. -/
structure RenderedLine where
  old_line_num : Option Nat
  new_line_num : Option Nat
  spans : List HighlightedSpan
  change_type : ChangeTag
deriving DecidableEq

/-- Oracle for `syntect`'s `HighlightLines` (an external collaborator):
`highlight_line` takes the lexer state carried across lines and the line
text and returns the next state plus either the highlighted regions
(foreground color and text per region) or `none` for a tokenization
failure (`Err` in the source). -/
structure Highlighter (σ : Type) where
  highlight_line : σ → String → σ × Option (List (SpanColor × String))

/-- The loop body of `render_lines` (`diff_viewer.rs` lines 327–363): each
line is highlighted with the carried-forward state; on failure
`unwrap_or_default()` substitutes the empty region list; each region
becomes one span. -/
def render_lines_go {σ : Type} (hl : Highlighter σ) :
    σ → List DiffLineRaw → List RenderedLine
  | _, [] => []
  | st, line :: rest =>
    let r := hl.highlight_line st line.content
    let regions := r.2.getD []
    let spans := regions.map (fun rg => HighlightedSpan.mk rg.2 rg.1)
    ⟨line.old_line_num, line.new_line_num, spans, line.change_type⟩ ::
      render_lines_go hl r.1 rest

/-- `render_lines` (`diff_viewer.rs` lines 327–363), with the highlighter
(grammar, theme and fresh lexer state) supplied as an oracle. -/
def render_lines {σ : Type} (hl : Highlighter σ) (st0 : σ)
    (lines : List DiffLineRaw) : List RenderedLine :=
  render_lines_go hl st0 lines

/-- Concatenation of the texts of a rendered line's spans. -/
def spans_text (l : RenderedLine) : String :=
  String.join (l.spans.map (fun s => s.text))

/-- The span-coverage contract of the external highlighter: whenever
`highlight_line` succeeds, the returned regions' texts concatenate to the
input line (documented behavior of `syntect`). -/
def HighlighterSound {σ : Type} (hl : Highlighter σ) : Prop :=
  ∀ st line out, (hl.highlight_line st line).2 = some out →
    String.join (out.map (fun rg => rg.2)) = line

/-- `FileStatus` from `changed_files.rs`. -/
inductive FileStatus where
  | Added : FileStatus
  | Modified : FileStatus
  | Deleted : FileStatus
  | Renamed : FileStatus
deriving DecidableEq

/-- `ChangedFile` from `changed_files.rs`. -/
structure ChangedFile where
  path : String
  status : FileStatus
deriving DecidableEq

/-- `std::fs::read_to_string(path).unwrap_or_default()`: the filesystem is
an oracle from paths to optional content; a read failure degrades to the
empty string. -/
def read_to_string_or_default (fs : String → Option String) (path : String) : String :=
  (fs path).getD ""

/-- `get_jj_file_content` (`diff_viewer.rs` lines 391–400): the VCS
collaborator is an oracle from paths to optional historical content; a
command failure or non-success exit degrades to the empty string. -/
def get_jj_file_content (jj : String → Option String) (path : String) : String :=
  (jj path).getD ""

/-- `get_file_contents` (`diff_viewer.rs` lines 373–389): resolve
(oldText, newText) from the classification, the filesystem oracle `fs` and
the VCS oracle `jj`. -/
def get_file_contents (fs jj : String → Option String) (path : String) :
    FileStatus → String × String
  | FileStatus.Added => ("", read_to_string_or_default fs path)
  | FileStatus.Deleted => (get_jj_file_content jj path, "")
  | FileStatus.Modified => (get_jj_file_content jj path, read_to_string_or_default fs path)
  | FileStatus.Renamed => (get_jj_file_content jj path, read_to_string_or_default fs path)

/-- The selection-clamping tail of `changed_files::show`
(`changed_files.rs` lines 109–116): clamp the index when the list is
non-empty and the index is out of range, then look up the selected file. -/
def clamp_and_select (files : List ChangedFile) (selected : Nat) :
    Nat × Option ChangedFile :=
  let s := if files.isEmpty = false ∧ files.length ≤ selected
    then files.length - 1 else selected
  (s, files[s]?)

/-- `DiffData` from `diff_viewer.rs`: the computed and pre-rendered diff,
keyed by the file path it was computed for. -/
structure DiffData where
  path : String
  inline_lines : List RenderedLine
  old_lines : List RenderedLine
  new_lines : List RenderedLine
deriving DecidableEq

/-- `compute_diff_data` (`diff_viewer.rs` lines 294–325): resolve contents,
diff, split, and render all three sequences; the result records the path it
was computed for. The grammar/theme pair selected from the path's extension
is supplied as the highlighter oracle `hl` with fresh state `st0` (a fresh
`HighlightLines` is created inside each `render_lines` call). -/
def compute_diff_data (fs jj : String → Option String) {σ : Type}
    (hl : Highlighter σ) (st0 : σ) (path : String) (status : FileStatus) :
    DiffData :=
  let contents := get_file_contents fs jj path status
  let diff_lines := compute_diff contents.1 contents.2
  let inline_lines := render_lines hl st0 diff_lines
  let both := split_for_side_by_side diff_lines
  let old_lines := render_lines hl st0 both.1
  let new_lines := render_lines hl st0 both.2
  ⟨path, inline_lines, old_lines, new_lines⟩

/-- `DiffState` from `diff_viewer.rs`. -/
inductive DiffState where
  | Empty : DiffState
  | Loading : String → DiffState
  | Loaded : DiffData → DiffState
deriving DecidableEq

/-- The shared world of the presentation loop and the background workers:
the app's current selection, the `DiffViewer` fields (`state`, `receiver`),
a counter of allocated channels, the in-flight workers (channel id, path,
status) and the sent-but-undrained channel messages. Channel ids are never
reused; dropping a receiver makes its channel's messages undrainable. -/
structure World where
  selected : Option ChangedFile
  viewer_state : DiffState
  receiver : Option Nat
  next_chan : Nat
  workers : List (Nat × String × FileStatus)
  buffers : List (Nat × DiffData)
deriving DecidableEq

/-- `DiffViewer::new` plus the initial `MyApp` fields. -/
def init_world : World :=
  ⟨none, DiffState.Empty, none, 0, [], []⟩

/-- `DiffViewer::invalidate_cache` (`diff_viewer.rs` lines 68–71). -/
def invalidate_cache (w : World) : World :=
  { w with viewer_state := DiffState.Empty, receiver := none }

/-- The dispatch tail of `ensure_loading` (`diff_viewer.rs` lines 88–102):
allocate a fresh channel, spawn a worker for the file, set the state to
`Loading` and hold the new receiver (dropping any previous one). -/
def dispatch (w : World) (file : ChangedFile) : World :=
  { w with
      viewer_state := DiffState.Loading file.path,
      receiver := some w.next_chan,
      next_chan := w.next_chan + 1,
      workers := (w.next_chan, file.path, file.status) :: w.workers }

/-- `Receiver::try_recv` on channel `c`: take the first message sent on
`c`, if any, leaving the rest. -/
def try_recv : List (Nat × DiffData) → Nat → Option (DiffData × List (Nat × DiffData))
  | [], _ => none
  | (c', d) :: rest, c =>
    if c' = c then some (d, rest)
    else match try_recv rest c with
      | some (d', rest') => some (d', (c', d) :: rest')
      | none => none

/-- `DiffViewer::ensure_loading` (`diff_viewer.rs` lines 73–103): a `Loaded`
state for the same path is kept; a `Loading` state for the same path polls
its receiver and, when a result arrived, becomes `Loaded` and drops the
receiver; anything else dispatches a new worker. -/
def ensure_loading (w : World) (file : ChangedFile) : World :=
  match w.viewer_state with
  | DiffState.Loaded data =>
    if data.path = file.path then w
    else dispatch w file
  | DiffState.Loading path =>
    if path = file.path then
      match w.receiver with
      | some c =>
        match try_recv w.buffers c with
        | some (data, rest) =>
          { w with
              viewer_state := DiffState.Loaded data,
              receiver := none,
              buffers := rest }
        | none => w
      | none => w
    else dispatch w file
  | DiffState.Empty => dispatch w file

/-- One frame of `MyApp::update` (`main.rs` lines 37–88): the sidebar
yields the new selection and the refresh flag; a selection change or a
refresh invalidates the cache; then `DiffViewer::show` runs
`ensure_loading` when a file is selected. -/
def app_update (w : World) (sel : Option ChangedFile) (refresh : Bool) : World :=
  let w1 := if w.selected ≠ sel ∨ refresh = true then invalidate_cache w else w
  let w2 := { w1 with selected := sel }
  match sel with
  | none => w2
  | some file => ensure_loading w2 file

/-- An asynchronous event: either one frame of the presentation loop, or
the completion of the worker on channel `c` (its thread body computes
`compute_data path status` and sends it on its channel). -/
inductive Ev where
  | update : Option ChangedFile → Bool → Ev
  | worker_done : Nat → Ev

/-- The interleaved semantics: frames and worker completions in any order.
`compute_data` abstracts the worker body `compute_diff_data`. -/
def step (compute_data : String → FileStatus → DiffData) (w : World) : Ev → World
  | Ev.update sel refresh => app_update w sel refresh
  | Ev.worker_done c =>
    match w.workers.find? (fun e => e.1 = c) with
    | some e =>
      { w with
          workers := w.workers.filter (fun x => decide (x.1 ≠ c)),
          buffers := w.buffers ++ [(c, compute_data e.2.1 e.2.2)] }
    | none => w

/-- Run a trace of events from a world. -/
def run (compute_data : String → FileStatus → DiffData) (w : World)
    (evs : List Ev) : World :=
  evs.foldl (step compute_data) w

/-- `Loading` recognizer for `DiffState`. -/
def is_loading : DiffState → Bool
  | DiffState.Loading _ => true
  | _ => false

/-- The receiver/state correspondence of `DiffViewer`: the completion
channel receiver is held exactly while the state is `Loading`. -/
def recv_inv (w : World) : Prop :=
  w.receiver.isSome = is_loading w.viewer_state

/-- All traffic on channel `c` belongs to path `p`: every in-flight worker
sending on `c` was spawned for `p`, and every undrained message on `c` was
computed for `p`. -/
def chan_ok (w : World) (c : Nat) (p : String) : Prop :=
  (∀ e ∈ w.workers, e.1 = c → e.2.1 = p) ∧
  (∀ e ∈ w.buffers, e.1 = c → e.2.path = p)

/-- The scheduler invariant: channel ids are below the allocation counter,
the receiver/state correspondence holds, and the held receiver's channel
carries only traffic for the currently tracked `Loading` path. -/
def Inv (w : World) : Prop :=
  (∀ e ∈ w.workers, e.1 < w.next_chan) ∧
  (∀ e ∈ w.buffers, e.1 < w.next_chan) ∧
  recv_inv w ∧
  (∀ c, w.receiver = some c →
    c < w.next_chan ∧ ∀ p, w.viewer_state = DiffState.Loading p → chan_ok w c p)

instance (w : World) : Decidable (recv_inv w) := by
  unfold recv_inv
  infer_instance

/-- A highlighter whose `highlight_line` always fails, modelling
`syntect` returning `Err` on every line. -/
def failing_highlighter : Highlighter Unit :=
  ⟨fun st _ => (st, none)⟩

/-- A highlighter that returns the whole line as a single region,
trivially satisfying the span-coverage contract. -/
def whole_line_highlighter : Highlighter Unit :=
  ⟨fun st line => (st, some [(⟨255, 255, 255, 255⟩, line)])⟩

/-- The real worker body `compute_diff_data`, at concrete oracles (empty
filesystem and VCS, whole-line highlighter), for exercising the scheduler. -/
def demo_compute_data : String → FileStatus → DiffData :=
  compute_diff_data (fun _ => none) (fun _ => none) whole_line_highlighter ()

theorem number_changes_shape (cs : List Change) (o n : Nat) :
    ∀ l ∈ number_changes cs o n, line_shape l := by
  induction cs generalizing o n with
  | nil => simp [number_changes]
  | cons c cs ih =>
    intro l hl
    cases h : c.tag <;> simp [number_changes, h] at hl <;>
      rcases hl with rfl | hl
    · simp [line_shape]
    · exact ih _ _ l hl
    · simp [line_shape]
    · exact ih _ _ l hl
    · simp [line_shape]
    · exact ih _ _ l hl

theorem range'_succ_one (s n : Nat) :
    List.range' s (n + 1) = s :: List.range' (s + 1) n := rfl

theorem number_changes_old_nums (cs : List Change) (o n : Nat) :
    (number_changes cs o n).filterMap DiffLineRaw.old_line_num =
      List.range' o (old_count cs) := by
  induction cs generalizing o n with
  | nil => simp [number_changes, old_count]
  | cons c cs ih =>
    cases h : c.tag
    · have hc : old_count (c :: cs) = old_count cs + 1 := by
        simp [old_count, List.filter_cons, h]
      rw [hc, range'_succ_one]
      simp [number_changes, h, List.filterMap_cons, ih]
    · have hc : old_count (c :: cs) = old_count cs := by
        simp [old_count, List.filter_cons, h]
      rw [hc]
      simp [number_changes, h, List.filterMap_cons, ih]
    · have hc : old_count (c :: cs) = old_count cs + 1 := by
        simp [old_count, List.filter_cons, h]
      rw [hc, range'_succ_one]
      simp [number_changes, h, List.filterMap_cons, ih]

theorem number_changes_new_nums (cs : List Change) (o n : Nat) :
    (number_changes cs o n).filterMap DiffLineRaw.new_line_num =
      List.range' n (new_count cs) := by
  induction cs generalizing o n with
  | nil => simp [number_changes, new_count]
  | cons c cs ih =>
    cases h : c.tag
    · have hc : new_count (c :: cs) = new_count cs := by
        simp [new_count, List.filter_cons, h]
      rw [hc]
      simp [number_changes, h, List.filterMap_cons, ih]
    · have hc : new_count (c :: cs) = new_count cs + 1 := by
        simp [new_count, List.filter_cons, h]
      rw [hc, range'_succ_one]
      simp [number_changes, h, List.filterMap_cons, ih]
    · have hc : new_count (c :: cs) = new_count cs + 1 := by
        simp [new_count, List.filter_cons, h]
      rw [hc, range'_succ_one]
      simp [number_changes, h, List.filterMap_cons, ih]

theorem lcs_diff_fuel_refl (ls : List String) (fuel : Nat) (h : ls.length ≤ fuel) :
    lcs_diff_fuel fuel ls ls = ls.map (fun s => ⟨ChangeTag.Equal, s⟩) := by
  induction ls generalizing fuel with
  | nil => cases fuel <;> simp [lcs_diff_fuel]
  | cons x xs ih =>
    cases fuel with
    | zero => simp at h
    | succ f =>
      simp [lcs_diff_fuel]
      exact ih f (by simp at h; omega)

theorem lcs_diff_refl (ls : List String) :
    lcs_diff ls ls = ls.map (fun s => ⟨ChangeTag.Equal, s⟩) :=
  lcs_diff_fuel_refl ls (ls.length + ls.length) (Nat.le_add_right _ _)

theorem number_changes_equal_diag (ls : List String) (k : Nat) :
    ∀ l ∈ number_changes (ls.map (fun s => ⟨ChangeTag.Equal, s⟩)) k k,
      l.change_type = ChangeTag.Equal ∧ l.old_line_num = l.new_line_num := by
  induction ls generalizing k with
  | nil => simp [number_changes]
  | cons x xs ih =>
    intro l hl
    simp [number_changes] at hl
    rcases hl with rfl | hl
    · exact ⟨rfl, rfl⟩
    · exact ih (k + 1) l hl

theorem split_for_side_by_side_length (ls : List DiffLineRaw) :
    (split_for_side_by_side ls).1.length = ls.length ∧
    (split_for_side_by_side ls).2.length = ls.length := by
  induction ls with
  | nil => simp [split_for_side_by_side]
  | cons line rest ih =>
    cases h : line.change_type <;>
      simp [split_for_side_by_side, h, ih.1, ih.2]

theorem split_for_side_by_side_index (ls : List DiffLineRaw) (i : Nat)
    (l : DiffLineRaw) (h : ls[i]? = some l) :
    (l.change_type = ChangeTag.Equal →
      (split_for_side_by_side ls).1[i]? = some l ∧
      (split_for_side_by_side ls).2[i]? = some l) ∧
    (l.change_type = ChangeTag.Delete →
      (split_for_side_by_side ls).1[i]? = some l ∧
      (split_for_side_by_side ls).2[i]? = some blank_line) ∧
    (l.change_type = ChangeTag.Insert →
      (split_for_side_by_side ls).1[i]? = some blank_line ∧
      (split_for_side_by_side ls).2[i]? = some l) := by
  induction ls generalizing i with
  | nil => simp at h
  | cons line rest ih =>
    cases i with
    | zero =>
      simp at h
      subst h
      cases hc : line.change_type <;>
        simp [split_for_side_by_side, hc, blank_line] <;> rw [← hc]
    | succ j =>
      simp at h
      have := ih j h
      cases hc : line.change_type <;>
        simpa [split_for_side_by_side, hc] using this

theorem render_lines_go_spans {σ : Type} (hl : Highlighter σ)
    (hsound : HighlighterSound hl) (st : σ) (lines : List DiffLineRaw)
    (i : Nat) (l : DiffLineRaw) (r : RenderedLine)
    (hlin : lines[i]? = some l) (hr : (render_lines_go hl st lines)[i]? = some r) :
    spans_text r = l.content ∨ (r.spans = [] ∧ spans_text r = "") := by
  induction lines generalizing st i with
  | nil => simp at hlin
  | cons line rest ih =>
    cases i with
    | zero =>
      simp at hlin
      subst hlin
      simp [render_lines_go] at hr
      rcases hout : (hl.highlight_line st line.content).2 with _ | out
      · right
        rw [← hr]
        simp [spans_text, hout]
        rfl
      · left
        rw [← hr]
        simp [spans_text, hout, List.map_map]
        exact hsound st line.content out hout
    | succ j =>
      simp at hlin
      simp [render_lines_go] at hr
      exact ih _ j hlin hr

theorem try_recv_spec (buf : List (Nat × DiffData)) (c : Nat) (d : DiffData)
    (rest : List (Nat × DiffData)) (h : try_recv buf c = some (d, rest)) :
    (c, d) ∈ buf ∧ ∀ x ∈ rest, x ∈ buf := by
  induction buf generalizing rest with
  | nil => simp [try_recv] at h
  | cons hd tl ih =>
    obtain ⟨c', d'⟩ := hd
    rw [try_recv] at h
    split at h
    · rename_i hc
      subst hc
      simp at h
      obtain ⟨rfl, rfl⟩ := h
      exact ⟨List.mem_cons_self _ _, fun x hx => List.mem_cons_of_mem _ hx⟩
    · rename_i hc
      split at h
      · rename_i d2 rest2 htr
        simp at h
        obtain ⟨rfl, rfl⟩ := h
        obtain ⟨hmem, hsub⟩ := ih rest2 htr
        refine ⟨List.mem_cons_of_mem _ hmem, ?sub⟩
        intro x hx
        rcases List.mem_cons.mp hx with rfl | hx
        · exact List.mem_cons_self _ _
        · exact List.mem_cons_of_mem _ (hsub x hx)
      · exact absurd h (by simp)

theorem inv_invalidate (w : World) (h : Inv w) : Inv (invalidate_cache w) := by
  obtain ⟨hw, hb, _, _⟩ := h
  refine ⟨hw, hb, ?rv, ?rc⟩
  · simp [invalidate_cache, recv_inv, is_loading]
  · intro c hc
    simp [invalidate_cache] at hc

theorem inv_dispatch (w : World) (file : ChangedFile) (h : Inv w) :
    Inv (dispatch w file) := by
  obtain ⟨hw, hb, _, _⟩ := h
  refine ⟨?wb, ?bb, ?rv, ?rc⟩
  · intro e he
    simp [dispatch] at he ⊢
    rcases he with rfl | he
    · omega
    · exact Nat.lt_succ_of_lt (hw e he)
  · intro e he
    simp [dispatch] at he ⊢
    exact Nat.lt_succ_of_lt (hb e he)
  · simp [dispatch, recv_inv, is_loading]
  · intro c hc
    simp [dispatch] at hc
    subst hc
    refine ⟨Nat.lt_succ_self _, ?ok⟩
    intro p hp
    simp [dispatch] at hp
    constructor
    · intro e he hec
      simp [dispatch] at he
      rcases he with he | he
      · rw [he]
        simpa using hp
      · exact absurd hec (Nat.ne_of_lt (hw e he))
    · intro e he hec
      simp [dispatch] at he
      exact absurd hec (Nat.ne_of_lt (hb e he))

theorem inv_selected (w : World) (sel : Option ChangedFile) (h : Inv w) :
    Inv { w with selected := sel } := h

theorem inv_ensure_loading (w : World) (file : ChangedFile) (h : Inv w) :
    Inv (ensure_loading w file) := by
  obtain ⟨hw, hb, hr, hc⟩ := h
  rw [ensure_loading]
  split
  · rename_i data hst
    split
    · exact ⟨hw, hb, hr, hc⟩
    · exact inv_dispatch w file ⟨hw, hb, hr, hc⟩
  · rename_i p hst
    split
    · rename_i hp
      split
      · rename_i c hrec
        split
        · rename_i data rest htr
          obtain ⟨_, hsub⟩ := try_recv_spec w.buffers c data rest htr
          refine ⟨hw, ?bb, ?rv, ?rc⟩
          · intro e he
            exact hb e (hsub e he)
          · simp [recv_inv, is_loading]
          · intro c0 hc0
            simp at hc0
        · exact ⟨hw, hb, hr, hc⟩
      · exact ⟨hw, hb, hr, hc⟩
    · exact inv_dispatch w file ⟨hw, hb, hr, hc⟩
  · exact inv_dispatch w file ⟨hw, hb, hr, hc⟩

theorem inv_app_update (w : World) (sel : Option ChangedFile) (refresh : Bool)
    (h : Inv w) : Inv (app_update w sel refresh) := by
  have h1 : Inv (if w.selected ≠ sel ∨ refresh = true then invalidate_cache w else w) := by
    split
    · exact inv_invalidate w h
    · exact h
  cases sel with
  | none => exact inv_selected _ none h1
  | some file => exact inv_ensure_loading _ file (inv_selected _ (some file) h1)

theorem inv_step (compute_data : String → FileStatus → DiffData)
    (hpath : ∀ p st, (compute_data p st).path = p)
    (w : World) (e : Ev) (h : Inv w) : Inv (step compute_data w e) := by
  obtain ⟨hw, hb, hr, hc⟩ := h
  cases e with
  | update sel refresh => exact inv_app_update w sel refresh ⟨hw, hb, hr, hc⟩
  | worker_done c =>
    rw [step]
    split
    · rename_i e hfind
      have hmem : e ∈ w.workers := List.mem_of_find?_eq_some hfind
      have hec : e.1 = c := by
        have := List.find?_some hfind
        simpa using this
      refine ⟨?wb, ?bb, hr, ?rc⟩
      · intro x hx
        exact hw x (List.mem_of_mem_filter hx)
      · intro x hx
        simp at hx
        rcases hx with hx | hx
        · exact hb x hx
        · rw [hx]
          rw [← hec]
          exact hw e hmem
      · intro c0 hc0
        obtain ⟨hlt, hok⟩ := hc c0 hc0
        refine ⟨hlt, ?ok⟩
        intro p hp
        obtain ⟨hokw, hokb⟩ := hok p hp
        constructor
        · intro x hx hxc
          exact hokw x (List.mem_of_mem_filter hx) hxc
        · intro x hx hxc
          simp at hx
          rcases hx with hx | hx
          · exact hokb x hx hxc
          · rw [hx] at hxc ⊢
            simp at hxc ⊢
            rw [hpath]
            subst hxc
            exact hokw e hmem hec
    · exact ⟨hw, hb, hr, hc⟩

theorem ensure_loaded_from (w : World) (file : ChangedFile) (h : Inv w)
    (d : DiffData) (hl : (ensure_loading w file).viewer_state = DiffState.Loaded d) :
    w.viewer_state = DiffState.Loaded d ∨ w.viewer_state = DiffState.Loading d.path := by
  obtain ⟨hw, hb, hr, hc⟩ := h
  rw [ensure_loading] at hl
  split at hl
  · rename_i data hst
    split at hl
    · left
      exact hl
    · exact absurd hl (by simp [dispatch])
  · rename_i p hst
    split at hl
    · split at hl
      · rename_i c hrec
        split at hl
        · rename_i data rest htr
          simp at hl
          obtain ⟨hmem, _⟩ := try_recv_spec w.buffers c data rest htr
          obtain ⟨_, hok⟩ := hc c hrec
          obtain ⟨_, hokb⟩ := hok p hst
          have hdp : data.path = p := hokb (c, data) hmem rfl
          right
          rw [hst, ← hdp, hl]
        · rw [hst] at hl
          exact absurd hl (by simp)
      · rw [hst] at hl
        exact absurd hl (by simp)
    · exact absurd hl (by simp [dispatch])
  · exact absurd hl (by simp [dispatch])

theorem step_loaded_from (compute_data : String → FileStatus → DiffData)
    (w : World) (e : Ev) (h : Inv w) (d : DiffData)
    (hl : (step compute_data w e).viewer_state = DiffState.Loaded d) :
    w.viewer_state = DiffState.Loaded d ∨ w.viewer_state = DiffState.Loading d.path := by
  cases e with
  | worker_done c =>
    rw [step] at hl
    split at hl
    · left
      exact hl
    · left
      exact hl
  | update sel refresh =>
    by_cases hcond : w.selected ≠ sel ∨ refresh = true
    · cases sel with
      | none =>
        have hl3 : ({ (if w.selected ≠ (none : Option ChangedFile) ∨ refresh = true
              then invalidate_cache w else w) with
            selected := (none : Option ChangedFile) }).viewer_state =
            DiffState.Loaded d := hl
        rw [if_pos hcond] at hl3
        exact absurd hl3 (by simp [invalidate_cache])
      | some file =>
        have hl3 : (ensure_loading { (if w.selected ≠ some file ∨ refresh = true
              then invalidate_cache w else w) with
            selected := some file } file).viewer_state = DiffState.Loaded d := hl
        rw [if_pos hcond] at hl3
        have h2 : Inv { invalidate_cache w with selected := some file } :=
          inv_selected _ _ (inv_invalidate w h)
        have h5 := ensure_loaded_from _ file h2 d hl3
        rcases h5 with hx | hx <;> exact absurd hx (by simp [invalidate_cache])
    · cases sel with
      | none =>
        left
        have hl3 : ({ (if w.selected ≠ (none : Option ChangedFile) ∨ refresh = true
              then invalidate_cache w else w) with
            selected := (none : Option ChangedFile) }).viewer_state =
            DiffState.Loaded d := hl
        rwa [if_neg hcond] at hl3
      | some file =>
        have hl3 : (ensure_loading { (if w.selected ≠ some file ∨ refresh = true
              then invalidate_cache w else w) with
            selected := some file } file).viewer_state = DiffState.Loaded d := hl
        rw [if_neg hcond] at hl3
        have h2 : Inv { w with selected := some file } := inv_selected _ _ h
        exact ensure_loaded_from _ file h2 d hl3

theorem split_old_no_insert (ls : List DiffLineRaw) :
    ∀ l ∈ (split_for_side_by_side ls).1, l.change_type ≠ ChangeTag.Insert := by
  induction ls with
  | nil => simp [split_for_side_by_side]
  | cons line rest ih =>
    intro l hl
    cases hc : line.change_type <;> simp [split_for_side_by_side, hc] at hl <;>
      rcases hl with rfl | hl
    · simp
    · exact ih l hl
    · simp [blank_line]
    · exact ih l hl
    · simp
    · exact ih l hl

theorem split_new_no_delete (ls : List DiffLineRaw) :
    ∀ l ∈ (split_for_side_by_side ls).2, l.change_type ≠ ChangeTag.Delete := by
  induction ls with
  | nil => simp [split_for_side_by_side]
  | cons line rest ih =>
    intro l hl
    cases hc : line.change_type <;> simp [split_for_side_by_side, hc] at hl <;>
      rcases hl with rfl | hl
    · simp [blank_line]
    · exact ih l hl
    · simp
    · exact ih l hl
    · simp
    · exact ih l hl

theorem split_row_tags (ls : List DiffLineRaw) (i : Nat) (a b : DiffLineRaw)
    (ha : (split_for_side_by_side ls).1[i]? = some a)
    (hb : (split_for_side_by_side ls).2[i]? = some b) :
    a.change_type = ChangeTag.Equal ∨ b.change_type = ChangeTag.Equal := by
  induction ls generalizing i with
  | nil => simp [split_for_side_by_side] at ha
  | cons line rest ih =>
    cases i with
    | zero =>
      cases hc : line.change_type
      · right
        simp [split_for_side_by_side, hc] at hb
        subst hb
        rfl
      · left
        simp [split_for_side_by_side, hc] at ha
        subst ha
        rfl
      · left
        simp [split_for_side_by_side, hc] at ha
        subst ha
        rfl
    | succ j =>
      cases hc : line.change_type <;>
        simp [split_for_side_by_side, hc] at ha hb <;>
        exact ih j ha hb

theorem recv_inv_ensure (w : World) (file : ChangedFile) (h : recv_inv w) :
    recv_inv (ensure_loading w file) := by
  rw [ensure_loading]
  split
  · split
    · exact h
    · simp [dispatch, recv_inv, is_loading]
  · split
    · split
      · split
        · simp [recv_inv, is_loading]
        · exact h
      · exact h
    · simp [dispatch, recv_inv, is_loading]
  · simp [dispatch, recv_inv, is_loading]

/-- C1: the cache's stale-result guard. (i) The scheduler invariant is
preserved by every interleaved step (frames of `MyApp::update` and worker
completions); (ii) the state only ever becomes `Loaded d` from a state
that was already `Loaded d` or was `Loading` for exactly `d.path`, so a
completed computation whose path no longer matches the tracked selection
never becomes the active `DiffState`; (iii) in the spec's scenario —
select A (worker W1 on channel 0), then select B (worker W2 on channel 1)
before W1 completes, W1 completing after W2 — the final state is `Loaded`
for B. -/
theorem claim_C1 (compute_data : String → FileStatus → DiffData)
    (hpath : ∀ p st, (compute_data p st).path = p) :
    (∀ w e, Inv w → Inv (step compute_data w e)) ∧
    (∀ w e d, Inv w → (step compute_data w e).viewer_state = DiffState.Loaded d →
      w.viewer_state = DiffState.Loaded d ∨
      w.viewer_state = DiffState.Loading d.path) ∧
    ((run compute_data init_world
        [Ev.update (some ⟨"A", FileStatus.Modified⟩) false,
         Ev.update (some ⟨"B", FileStatus.Modified⟩) false,
         Ev.worker_done 1, Ev.worker_done 0,
         Ev.update (some ⟨"B", FileStatus.Modified⟩) false]).viewer_state =
        DiffState.Loaded (compute_data "B" FileStatus.Modified) ∧
      (compute_data "B" FileStatus.Modified).path = "B") := by
  refine ⟨fun w e h => inv_step compute_data hpath w e h,
    fun w e d h hl => step_loaded_from compute_data w e h d hl,
    rfl, hpath "B" FileStatus.Modified⟩

/-- Witness for C1: the invariant preservation and the scenario, at the
concrete worker body `demo_compute_data`. -/
theorem claim_C1_witness :
    Inv (step demo_compute_data init_world
      (Ev.update (some ⟨"A", FileStatus.Modified⟩) false)) ∧
    (run demo_compute_data init_world
      [Ev.update (some ⟨"A", FileStatus.Modified⟩) false,
       Ev.update (some ⟨"B", FileStatus.Modified⟩) false,
       Ev.worker_done 1, Ev.worker_done 0,
       Ev.update (some ⟨"B", FileStatus.Modified⟩) false]).viewer_state =
      DiffState.Loaded (demo_compute_data "B" FileStatus.Modified) :=
  ⟨(claim_C1 demo_compute_data (fun _ _ => rfl)).1 init_world
      (Ev.update (some ⟨"A", FileStatus.Modified⟩) false)
      ⟨by simp [init_world], by simp [init_world],
       by simp [init_world, recv_inv, is_loading],
       by intro c hc; simp [init_world] at hc⟩,
   (claim_C1 demo_compute_data (fun _ _ => rfl)).2.2.1⟩

/-- C2 counterexample: with a line that fails to tokenize, `render_lines`
produces an empty span list (`unwrap_or_default()` substitutes no
regions), so the concatenated span text of the line "abc" is the empty
string, not "abc" — and in particular not a single whole-line span. -/
theorem claim_C2_counterexample :
    (render_lines failing_highlighter () [⟨some 1, some 1, "abc", ChangeTag.Equal⟩]).map
      spans_text ≠ ["abc"] := by decide

/-- C2 (amended): given the highlighter's span-coverage contract on
successful lines, every rendered line's concatenated span text equals the
line's original content, except that a line that fails to tokenize gets
the empty span list (empty concatenation), not a whole-line span. -/
theorem claim_C2_amended {σ : Type} (hl : Highlighter σ)
    (hsound : HighlighterSound hl) (st0 : σ) (lines : List DiffLineRaw)
    (i : Nat) (l : DiffLineRaw) (r : RenderedLine)
    (hlin : lines[i]? = some l)
    (hr : (render_lines hl st0 lines)[i]? = some r) :
    spans_text r = l.content ∨ (r.spans = [] ∧ spans_text r = "") :=
  render_lines_go_spans hl hsound st0 lines i l r hlin hr

/-- Witness for C2: the amended claim at a concrete sound highlighter and
a concrete line. -/
theorem claim_C2_witness :
    spans_text ⟨some 1, some 1, [⟨"ab", ⟨255, 255, 255, 255⟩⟩], ChangeTag.Equal⟩ = "ab" ∨
    ((⟨some 1, some 1, [⟨"ab", ⟨255, 255, 255, 255⟩⟩], ChangeTag.Equal⟩ : RenderedLine).spans = [] ∧
     spans_text ⟨some 1, some 1, [⟨"ab", ⟨255, 255, 255, 255⟩⟩], ChangeTag.Equal⟩ = "") :=
  claim_C2_amended whole_line_highlighter
    (by
      intro st line out h
      simp [whole_line_highlighter] at h
      subst h
      simp [String.join])
    () [⟨some 1, some 1, "ab", ChangeTag.Equal⟩] 0
    ⟨some 1, some 1, "ab", ChangeTag.Equal⟩
    ⟨some 1, some 1, [⟨"ab", ⟨255, 255, 255, 255⟩⟩], ChangeTag.Equal⟩
    (by decide) (by decide)

/-- C3: in the numbering loop of `compute_diff`, for every change
sequence, both counters start at 1; Equal lines carry both numbers,
Deleted only the old one, Inserted only the new one; and the emitted old
numbers (and likewise new numbers) are exactly 1, 2, 3, … — strictly
increasing by exactly 1 at each emission. `compute_diff` is this loop
applied to the diff's change sequence. -/
theorem claim_C3 (cs : List Change) :
    (∀ o n, compute_diff o n = number_changes (text_diff_from_lines o n) 1 1) ∧
    (∀ l ∈ number_changes cs 1 1, line_shape l) ∧
    (number_changes cs 1 1).filterMap DiffLineRaw.old_line_num =
      List.range' 1 (old_count cs) ∧
    (number_changes cs 1 1).filterMap DiffLineRaw.new_line_num =
      List.range' 1 (new_count cs) :=
  ⟨fun _ _ => rfl, number_changes_shape cs 1 1,
   number_changes_old_nums cs 1 1, number_changes_new_nums cs 1 1⟩

/-- Witness for C3: a concrete change sequence and member line. -/
theorem claim_C3_witness :
    (⟨some 1, none, "a", ChangeTag.Delete⟩ : DiffLineRaw) ∈
      number_changes [⟨ChangeTag.Delete, "a"⟩, ⟨ChangeTag.Equal, "b"⟩] 1 1 ∧
    line_shape (⟨some 1, none, "a", ChangeTag.Delete⟩ : DiffLineRaw) :=
  ⟨by decide,
   (claim_C3 [⟨ChangeTag.Delete, "a"⟩, ⟨ChangeTag.Equal, "b"⟩]).2.1
     ⟨some 1, none, "a", ChangeTag.Delete⟩ (by decide)⟩

/-- C4: `split_for_side_by_side` maps each input line positionally: an
Equal line is duplicated verbatim into both panes at the same index; a
Deleted line keeps its content in the old pane while the new pane gets a
blank placeholder (Equal tag, empty content, no line numbers) at the same
index; an Inserted line is the mirror. -/
theorem claim_C4 (ls : List DiffLineRaw) (i : Nat) (l : DiffLineRaw)
    (h : ls[i]? = some l) :
    (l.change_type = ChangeTag.Equal →
      (split_for_side_by_side ls).1[i]? = some l ∧
      (split_for_side_by_side ls).2[i]? = some l) ∧
    (l.change_type = ChangeTag.Delete →
      (split_for_side_by_side ls).1[i]? = some l ∧
      (split_for_side_by_side ls).2[i]? = some blank_line) ∧
    (l.change_type = ChangeTag.Insert →
      (split_for_side_by_side ls).1[i]? = some blank_line ∧
      (split_for_side_by_side ls).2[i]? = some l) :=
  split_for_side_by_side_index ls i l h

/-- Witness for C4: a concrete Deleted line. -/
theorem claim_C4_witness :
    ([⟨some 1, none, "b", ChangeTag.Delete⟩] : List DiffLineRaw)[0]? =
      some ⟨some 1, none, "b", ChangeTag.Delete⟩ ∧
    ((split_for_side_by_side [⟨some 1, none, "b", ChangeTag.Delete⟩]).1[0]? =
      some ⟨some 1, none, "b", ChangeTag.Delete⟩ ∧
     (split_for_side_by_side [⟨some 1, none, "b", ChangeTag.Delete⟩]).2[0]? =
      some blank_line) :=
  ⟨by decide,
   (claim_C4 [⟨some 1, none, "b", ChangeTag.Delete⟩] 0
     ⟨some 1, none, "b", ChangeTag.Delete⟩ (by decide)).2.1 rfl⟩

/-- C5: for every pair of input texts, splitting the diff output yields
two pane sequences each of the same length as the unified sequence. -/
theorem claim_C5 (old new : String) :
    (split_for_side_by_side (compute_diff old new)).1.length =
      (compute_diff old new).length ∧
    (split_for_side_by_side (compute_diff old new)).2.length =
      (compute_diff old new).length :=
  split_for_side_by_side_length (compute_diff old new)

/-- C6: diffing a text against itself yields only Equal-tagged lines with
equal old and new line numbers at every position. -/
theorem claim_C6 (text : String) :
    ∀ l ∈ compute_diff text text,
      l.change_type = ChangeTag.Equal ∧ l.old_line_num = l.new_line_num := by
  intro l hl
  rw [compute_diff, text_diff_from_lines, lcs_diff_refl] at hl
  exact number_changes_equal_diag (split_lines_keep text) 1 l hl

/-- Witness for C6: a concrete self-diff member. -/
theorem claim_C6_witness :
    (⟨some 1, some 1, "x", ChangeTag.Equal⟩ : DiffLineRaw) ∈
      compute_diff "x\ny\n" "x\ny\n" ∧
    ((⟨some 1, some 1, "x", ChangeTag.Equal⟩ : DiffLineRaw).change_type = ChangeTag.Equal ∧
     (⟨some 1, some 1, "x", ChangeTag.Equal⟩ : DiffLineRaw).old_line_num =
       (⟨some 1, some 1, "x", ChangeTag.Equal⟩ : DiffLineRaw).new_line_num) :=
  ⟨by decide,
   claim_C6 "x\ny\n" ⟨some 1, some 1, "x", ChangeTag.Equal⟩ (by decide)⟩

/-- C7: for an Added classification the resolver returns an empty oldText
regardless of the VCS oracle, and newText is the filesystem content or the
empty string when the read fails; resolution is total (no error is
propagated). -/
theorem claim_C7 (fs jj : String → Option String) (path : String) :
    get_file_contents fs jj path FileStatus.Added = ("", (fs path).getD "") ∧
    get_file_contents fs jj path FileStatus.Added =
      get_file_contents fs (fun _ => none) path FileStatus.Added :=
  ⟨rfl, rfl⟩

/-- C8 counterexample: when the file list is empty the code leaves the
index unchanged (the clamp is guarded by `!files.is_empty()`), so with
prior index 5 and an empty list the returned index 5 is not a valid index
and the returned file is `none`, refuting the claim's universal form. -/
theorem claim_C8_counterexample :
    (clamp_and_select [] 5).1 = 5 ∧
    ¬ ((clamp_and_select [] 5).1 < ([] : List ChangedFile).length) ∧
    (clamp_and_select [] 5).2 = none := by decide

/-- C8 (amended): whenever the resulting file list is non-empty, the
returned index is a valid index into the list and the returned selected
file is the entry at that index. -/
theorem claim_C8_amended (files : List ChangedFile) (selected : Nat)
    (h : files ≠ []) :
    (clamp_and_select files selected).1 < files.length ∧
    (clamp_and_select files selected).2 =
      files[(clamp_and_select files selected).1]? ∧
    (clamp_and_select files selected).2.isSome := by
  have hempty : files.isEmpty = false := by simp [List.isEmpty_iff, h]
  have hlen : 0 < files.length := List.length_pos.mpr h
  have hsnd : (clamp_and_select files selected).2 =
      files[(clamp_and_select files selected).1]? := by
    by_cases hc : files.length ≤ selected <;>
      simp [clamp_and_select, hempty, hc]
  have hlt : (clamp_and_select files selected).1 < files.length := by
    by_cases hc : files.length ≤ selected <;>
      simp [clamp_and_select, hempty, hc] <;> omega
  refine ⟨hlt, hsnd, ?_⟩
  rw [hsnd, List.getElem?_eq_getElem hlt]
  rfl

/-- Witness for C8: a singleton list with an out-of-range prior index. -/
theorem claim_C8_witness :
    (clamp_and_select [⟨"a", FileStatus.Added⟩] 3).1 <
      ([⟨"a", FileStatus.Added⟩] : List ChangedFile).length ∧
    (clamp_and_select [⟨"a", FileStatus.Added⟩] 3).2 =
      ([⟨"a", FileStatus.Added⟩] :
        List ChangedFile)[(clamp_and_select [⟨"a", FileStatus.Added⟩] 3).1]? ∧
    (clamp_and_select [⟨"a", FileStatus.Added⟩] 3).2.isSome :=
  claim_C8_amended [⟨"a", FileStatus.Added⟩] 3 (by decide)

/-- C9: the completion-channel receiver is `Some` exactly when the state
is `Loading`: the correspondence holds initially (`new`) and is preserved
by `invalidate_cache` and by the `ensure_loading` step of `show`. -/
theorem claim_C9 :
    recv_inv init_world ∧
    (∀ w, recv_inv w → recv_inv (invalidate_cache w)) ∧
    (∀ w file, recv_inv w → recv_inv (ensure_loading w file)) := by
  refine ⟨?init, ?inval, ?ens⟩
  · simp [init_world, recv_inv, is_loading]
  · intro w h
    simp [invalidate_cache, recv_inv, is_loading]
  · intro w file h
    exact recv_inv_ensure w file h

/-- Witness for C9: the correspondence after a concrete `ensure_loading`
from the initial state. -/
theorem claim_C9_witness :
    recv_inv (ensure_loading init_world ⟨"A", FileStatus.Added⟩) :=
  (claim_C9).2.2 init_world ⟨"A", FileStatus.Added⟩ (by decide)

/-- C10: in the output of `split_for_side_by_side`, the old pane never
contains an Insert-tagged line, the new pane never contains a
Delete-tagged line, and at any shared index at most one of the two pane
lines carries a non-Equal tag. -/
theorem claim_C10 (ls : List DiffLineRaw) :
    (∀ l ∈ (split_for_side_by_side ls).1, l.change_type ≠ ChangeTag.Insert) ∧
    (∀ l ∈ (split_for_side_by_side ls).2, l.change_type ≠ ChangeTag.Delete) ∧
    (∀ (i : Nat) (a b : DiffLineRaw), (split_for_side_by_side ls).1[i]? = some a →
      (split_for_side_by_side ls).2[i]? = some b →
      a.change_type = ChangeTag.Equal ∨ b.change_type = ChangeTag.Equal) :=
  ⟨split_old_no_insert ls, split_new_no_delete ls, split_row_tags ls⟩

/-- Witness for C10: a concrete Insert line's row. -/
theorem claim_C10_witness :
    ((⟨none, none, "", ChangeTag.Equal⟩ : DiffLineRaw).change_type = ChangeTag.Equal ∨
     (⟨none, some 1, "x", ChangeTag.Insert⟩ : DiffLineRaw).change_type = ChangeTag.Equal) :=
  (claim_C10 [⟨none, some 1, "x", ChangeTag.Insert⟩]).2.2 0
    ⟨none, none, "", ChangeTag.Equal⟩ ⟨none, some 1, "x", ChangeTag.Insert⟩
    (by decide) (by decide)

end LeDiffer
